import Mathlib

/-
Verification of the OCR screenshot core pipeline (`ocr_core.py`):
theme detection, preprocessing with theme-dependent gamma correction,
confidence filtering, greedy line reconstruction, overlay rendering and
text/CSV export.  Pixel coordinates and confidences are modelled as
rationals; the real-valued gamma power uses `Real.rpow`.  External
library calls (image decoding, OpenCV raster operations, the EasyOCR
recognition engine) are modelled as parameters bundled in `Ext`.
-/

namespace OcrCore

/-- One detected text unit: bounding polygon (list of points), recognized
string and confidence score.  Mirrors the `(bbox, text, conf)` triples
returned by the recognition engine. -/
structure Frag where
  bbox : List (ℚ × ℚ)
  text : String
  conf : ℚ
  deriving DecidableEq

/-- Axis-aligned bounding box, as produced by `_bbox_to_rect`. -/
structure Rect where
  x1 : ℤ
  y1 : ℤ
  x2 : ℤ
  y2 : ℤ
  deriving DecidableEq

/-- Python `int(q)`: truncation toward zero.  For `q = num/den` with
`den > 0` this is exactly T-division of the numerator by the denominator. -/
def pyInt (q : ℚ) : ℤ :=
  q.num.tdiv q.den

/-- Python `min` over a list of rationals (the source only calls it on
non-empty bbox point lists; the empty list is totalized to `0`). -/
def listMin (l : List ℚ) : ℚ :=
  l.foldl min (l.headD 0)

/-- Python `max` over a list of rationals (totalized like `listMin`). -/
def listMax (l : List ℚ) : ℚ :=
  l.foldl max (l.headD 0)

/-- `_bbox_to_rect` (ocr_core.py:87-91): min/max over the polygon points,
truncated to int. -/
def bbox_to_rect (bbox : List (ℚ × ℚ)) : Rect :=
  let xs := bbox.map Prod.fst
  let ys := bbox.map Prod.snd
  { x1 := pyInt (listMin xs), y1 := pyInt (listMin ys),
    x2 := pyInt (listMax xs), y2 := pyInt (listMax ys) }

/-- The decision rule of `detect_theme` (ocr_core.py:49-53), as a function
of the grayscale mean and standard deviation. -/
def theme_rule (mean std : ℚ) : String :=
  if mean < 115 then "dark"
  else if mean > 165 then "light"
  else if mean < 140 ∧ std > 45 then "dark" else "light"

/-! ### Line reconstruction (`group_into_lines`, ocr_core.py:94-123) -/

/-- One entry of the `items` list built at ocr_core.py:96-100:
`(y1, cy, x1, text)` with `cy = 0.5 * (y1 + y2)` of the bbox rect. -/
structure Item where
  y1 : ℤ
  cy : ℚ
  x1 : ℤ
  text : String
  deriving DecidableEq

/-- Build one item from a fragment (ocr_core.py:97-100). -/
def mkItem (f : Frag) : Item :=
  let r := bbox_to_rect f.bbox
  { y1 := r.y1, cy := (1/2 : ℚ) * ((r.y1 : ℚ) + (r.y2 : ℚ)), x1 := r.x1, text := f.text }

/-- The sort key order of `items.sort(key=lambda t: (t[0], t[2]))`
(ocr_core.py:102): lexicographic on `(y1, x1)`. -/
def itemRel (a b : Item) : Prop :=
  a.y1 < b.y1 ∨ (a.y1 = b.y1 ∧ a.x1 ≤ b.x1)

instance : DecidableRel itemRel := fun a b =>
  inferInstanceAs (Decidable (a.y1 < b.y1 ∨ (a.y1 = b.y1 ∧ a.x1 ≤ b.x1)))

instance : IsTotal Item itemRel := by
  constructor
  intro a b
  unfold itemRel
  omega

instance : IsTrans Item itemRel := by
  constructor
  intro a b c hab hbc
  unfold itemRel at hab hbc ⊢
  omega

/-- The sort key order of `line.sort(key=lambda t: t[0])` (ocr_core.py:121):
ascending `x1` on the `(x1, text)` pairs of a line. -/
def memRel (a b : ℤ × String) : Prop :=
  a.1 ≤ b.1

instance : DecidableRel memRel := fun a b =>
  inferInstanceAs (Decidable (a.1 ≤ b.1))

instance : IsTotal (ℤ × String) memRel := by
  constructor
  intro a b
  unfold memRel
  omega

instance : IsTrans (ℤ × String) memRel := by
  constructor
  intro a b c hab hbc
  unfold memRel at hab hbc ⊢
  omega

/-- The inner scan `for i, lcy in enumerate(line_cys): if abs(cy - lcy) <= y_tol`
(ocr_core.py:109-114): index of the first running center within tolerance. -/
def scanMatch (line_cys : List ℚ) (cy y_tol : ℚ) : Option ℕ :=
  match line_cys with
  | [] => none
  | lcy :: rest =>
    if |cy - lcy| ≤ y_tol then some 0
    else (scanMatch rest cy y_tol).map (fun i => i + 1)

/-- The body of the assignment loop (ocr_core.py:107-117), acting on the
parallel state `(lines, line_cys)`: append to the first matching cluster and
smooth its center with weights 0.7/0.3, else open a new cluster. -/
def assignItem (y_tol : ℚ) (st : List (List (ℤ × String)) × List ℚ) (it : Item) :
    List (List (ℤ × String)) × List ℚ :=
  match scanMatch st.2 it.cy y_tol with
  | some i =>
    (st.1.set i (st.1.getD i [] ++ [(it.x1, it.text)]),
     st.2.set i ((7/10 : ℚ) * st.2.getD i 0 + (3/10 : ℚ) * it.cy))
  | none => (st.1 ++ [[(it.x1, it.text)]], st.2 ++ [it.cy])

/-- Python `str.rstrip()`: remove all trailing whitespace characters. -/
def pyRstrip (s : String) : String :=
  String.mk ((s.data.reverse.dropWhile Char.isWhitespace).reverse)

/-- Rendering of one cluster (ocr_core.py:120-122): sort members by `x1`,
join the texts with single spaces, strip trailing whitespace. -/
def renderLine (line : List (ℤ × String)) : String :=
  pyRstrip (String.intercalate " " ((List.insertionSort memRel line).map Prod.snd))

/-- `group_into_lines` (ocr_core.py:94-123). -/
def group_into_lines (results : List Frag) (y_tol : ℚ) : List String :=
  let items := results.map mkItem
  let sorted := List.insertionSort itemRel items
  let st := sorted.foldl (assignItem y_tol) ([], [])
  st.1.map renderLine

/-- Spec-side view of one open line cluster: its members together with its
running vertical-center estimate (spec §4.4 step 3). -/
structure LineCluster where
  members : List (ℤ × String)
  center : ℚ
  deriving DecidableEq

/-- Modelled from the spec (§4.4 step 4): assign a fragment to the FIRST
cluster whose running center is within `y_tol` of its `cy`, updating the
center to `0.7*old + 0.3*cy`; otherwise append a fresh cluster seeded with
`cy`. -/
def placeItem (y_tol : ℚ) (it : Item) : List LineCluster → List LineCluster
  | [] => [⟨[(it.x1, it.text)], it.cy⟩]
  | c :: cs =>
    if |it.cy - c.center| ≤ y_tol then
      ⟨c.members ++ [(it.x1, it.text)], (7/10 : ℚ) * c.center + (3/10 : ℚ) * it.cy⟩ :: cs
    else c :: placeItem y_tol it cs

/-- The cluster list obtained by sorting the items by `(y1, x1)` and folding
`placeItem` over them, starting from no clusters (spec §4.4 steps 2-4). -/
def clustersOf (results : List Frag) (y_tol : ℚ) : List LineCluster :=
  (List.insertionSort itemRel (results.map mkItem)).foldl
    (fun cs it => placeItem y_tol it cs) []

/-- Spec-side formulation of `group_into_lines` (spec §4.4 step 5): render
each cluster, in the order clusters were opened. -/
def spec_group_into_lines (results : List Frag) (y_tol : ℚ) : List String :=
  (clustersOf results y_tol).map (fun c => renderLine c.members)

/-! ### External collaborators

The image decoder, the OpenCV raster primitives and the EasyOCR engine are
external libraries; they are modelled as an uninterpreted operation bundle
over an abstract image type. -/

/-- `OCRConfig` (ocr_core.py:13-30) with its default field values. -/
structure OCRConfig where
  lang : String := "en"
  gpu : Bool := false
  scale : ℚ := 5/2
  text_threshold : ℚ := 11/20
  low_text : ℚ := 1/5
  link_threshold : ℚ := 7/20
  contrast_ths : ℚ := 3/100
  adjust_contrast : ℚ := 4/5
  min_conf : ℚ := 1/5
  use_allowlist : Bool := true
  deriving DecidableEq

/-- External operations used by the pipeline, over image type `Img`.
`imread` returns `none` on decode failure (cv2.imread returning None);
`readtext` models `easyocr.Reader(...).readtext(...)`, which may raise. -/
structure Ext (Img : Type) where
  imread : String → Option Img
  grayMean : Img → ℚ
  grayStd : Img → ℚ
  resize : ℚ → Img → Img
  clahe : Img → Img
  toGray : Img → Img
  applyLUT : (ℕ → ℤ) → Img → Img
  bilateral : Img → Img
  sharpen : Img → Img
  readtext : OCRConfig → Img → Except String (List Frag)
  rectangle : Img → ℤ × ℤ → ℤ × ℤ → Img
  putText : Img → String → ℤ × ℤ → Img
  dims : Img → ℕ × ℕ

variable {Img : Type}

/-- `load_image` (ocr_core.py:36-40): decode or raise `FileNotFoundError`. -/
def load_image (E : Ext Img) (path : String) : Except String Img :=
  match E.imread path with
  | none => Except.error ("Image not found: " ++ path)
  | some img => Except.ok img

/-- `detect_theme` (ocr_core.py:43-53): grayscale statistics fed into the
decision rule. -/
def detect_theme (E : Ext Img) (bgr : Img) : String :=
  theme_rule (E.grayMean bgr) (E.grayStd bgr)

/-- The 256-entry lookup table of `_gamma` (ocr_core.py:65-68):
`inv = 1.0 / max(gamma, 1e-6)`, entry `i` is `(i/255)**inv * 255` cast to
`uint8`.  The cast truncates toward zero, which on these nonnegative values
is the floor. -/
noncomputable def gammaTable (gamma : ℚ) (i : ℕ) : ℤ :=
  ⌊((i : ℝ) / 255) ^ ((1 : ℝ) / max (gamma : ℝ) (1 / 1000000)) * 255⌋

/-- `_gamma` (ocr_core.py:65-68): apply the lookup table to a gray image. -/
noncomputable def gammaStep (E : Ext Img) (gray : Img) (gamma : ℚ) : Img :=
  E.applyLUT (gammaTable gamma) gray

/-- The conditional upscale `if abs(scale - 1.0) > 1e-6: cv2.resize(...)`
shared by ocr_core.py:73-74 and ocr_core.py:146-147. -/
def pyResizeStep (E : Ext Img) (bgr : Img) (scale : ℚ) : Img :=
  if |scale - 1| > 1 / 1000000 then E.resize scale bgr else bgr

/-- `preprocess_for_screenshot` (ocr_core.py:71-84): upscale, CLAHE,
grayscale, gamma for dark theme only, bilateral filter, unsharp mask. -/
noncomputable def preprocess_for_screenshot (E : Ext Img) (bgr : Img)
    (theme : String) (scale : ℚ) : Img :=
  let bgr1 := pyResizeStep E bgr scale
  let bgr2 := E.clahe bgr1
  let gray := E.toGray bgr2
  let gray2 := if theme = "dark" then gammaStep E gray (5/4) else gray
  E.sharpen (E.bilateral gray2)

/-! ### Overlay rendering (`draw_overlay`, ocr_core.py:126-135) -/

/-- The Python format `f"{conf:.2f}"` idealized over the rationals:
round to the nearest hundredth and print with exactly two decimals. -/
def fmt2 (q : ℚ) : String :=
  let n : ℤ := round (q * 100)
  let a : ℕ := n.natAbs
  (if n < 0 then "-" else "") ++ toString (a / 100) ++ "." ++
    (if a % 100 < 10 then "0" else "") ++ toString (a % 100)

/-- The overlay label `f"{text} ({conf:.2f})"` (ocr_core.py:133). -/
def fragLabel (f : Frag) : String :=
  f.text ++ " (" ++ fmt2 f.conf ++ ")"

/-- The label anchor `(x1, max(0, y1 - 8))` (ocr_core.py:134): clamped so
the label never lies above the image top edge. -/
def labelPos (f : Frag) : ℤ × ℤ :=
  let r := bbox_to_rect f.bbox
  (r.x1, max 0 (r.y1 - 8))

/-- Drawing of one accepted fragment (ocr_core.py:131-134): its bounding
rectangle, then its label at the clamped anchor. -/
def overlayStep (E : Ext Img) (out : Img) (f : Frag) : Img :=
  let r := bbox_to_rect f.bbox
  E.putText (E.rectangle out (r.x1, r.y1) (r.x2, r.y2)) (fragLabel f) (labelPos f)

/-- `draw_overlay` (ocr_core.py:126-135): start from a copy of the scaled
image and draw every fragment whose confidence reaches `min_conf`. -/
def draw_overlay (E : Ext Img) (bgr_scaled : Img) (results : List Frag)
    (min_conf : ℚ) : Img :=
  results.foldl (fun out f => if f.conf < min_conf then out else overlayStep E out f)
    bgr_scaled

/-! ### The pipeline (`run_ocr`, ocr_core.py:138-178) -/

/-- The dict returned by `run_ocr` (ocr_core.py:172-178). -/
structure RunResult (Img : Type) where
  theme : String
  lines : List String
  results : List Frag
  overlay_bgr : Img
  bgr_scaled : Img

/-- The confidence filter of ocr_core.py:165: keep fragments with
`conf >= min_conf`, in order. -/
def fragFilter (results : List Frag) (min_conf : ℚ) : List Frag :=
  results.filter (fun f => decide (min_conf ≤ f.conf))

/-- The vertical tolerance `18.0 * max(scale / 2.5, 0.6)` (ocr_core.py:167). -/
def yTolOf (scale : ℚ) : ℚ :=
  18 * max (scale / (5/2)) (3/5)

/-- `run_ocr` (ocr_core.py:138-178).  Failures of the decoder or of the
recognition engine propagate; otherwise a complete result is assembled. -/
noncomputable def run_ocr (E : Ext Img) (image_path : String) (cfg : OCRConfig) :
    Except String (RunResult Img) :=
  match load_image E image_path with
  | Except.error e => Except.error e
  | Except.ok bgr =>
    let theme := detect_theme E bgr
    let prep := preprocess_for_screenshot E bgr theme cfg.scale
    let bgr_scaled := pyResizeStep E bgr cfg.scale
    match E.readtext cfg prep with
    | Except.error e => Except.error e
    | Except.ok results =>
      let filtered := fragFilter results cfg.min_conf
      let lines := group_into_lines filtered (yTolOf cfg.scale)
      let overlay := draw_overlay E bgr_scaled filtered cfg.min_conf
      Except.ok { theme := theme, lines := lines, results := filtered,
                  overlay_bgr := overlay, bgr_scaled := bgr_scaled }

/-! ### Export (`export_txt` / `export_csv`, ocr_core.py:181-197) -/

/-- The file content written by `export_txt` (ocr_core.py:184):
`"\n".join(lines) + "\n"`. -/
def export_txt_content (lines : List String) : String :=
  String.intercalate "\n" lines ++ "\n"

/-- Python `str.split("\n")` on the character list of a string, used to model
re-reading an exported text file. -/
def splitNl : List Char → List (List Char)
  | [] => [[]]
  | c :: cs =>
    let r := splitNl cs
    if c = '\n' then [] :: r
    else (c :: r.headD []) :: r.tail

/-- Minimal quoting of the `csv` module's default dialect: a field is quoted
only when it holds a delimiter, a quote or a line break. -/
def csvNeedsQuote (s : String) : Bool :=
  s.data.any (fun c => c = ',' ∨ c = '"' ∨ c = '\r' ∨ c = '\n')

/-- Double every quote character, for a quoted csv field. -/
def csvEscape (s : String) : String :=
  String.mk (s.data.foldr (fun c acc => if c = '"' then '"' :: '"' :: acc else c :: acc) [])

/-- One csv field under the default dialect's minimal quoting. -/
def csvField (s : String) : String :=
  if csvNeedsQuote s then "\"" ++ csvEscape s ++ "\"" else s

/-- One csv row: comma-separated fields, `\r\n` terminator (the default
dialect of `csv.writer`). -/
def csvRow (fields : List String) : String :=
  String.intercalate "," (fields.map csvField) ++ "\r\n"

/-- The data-row loop of `export_csv` (ocr_core.py:195-196):
`for i, line in enumerate(lines, start=1): w.writerow([i, line])`. -/
def csvRows (start : ℕ) : List String → String
  | [] => ""
  | l :: ls => csvRow [toString start, l] ++ csvRows (start + 1) ls

/-- The file content written by `export_csv` (ocr_core.py:188-197): header
row then the enumerated data rows. -/
def export_csv_content (lines : List String) : String :=
  csvRow ["line_no", "text"] ++ csvRows 1 lines

/-! ### Bridge lemmas: the parallel-list loop state of `group_into_lines`
versus the cluster-record view of the specification. -/

/-- Step equation: the fragment joins the first cluster when its head
matches. -/
theorem assignItem_cons_hit (y_tol : ℚ) (it : Item) (l : List (ℤ × String))
    (ls : List (List (ℤ × String))) (q : ℚ) (qs : List ℚ)
    (hq : |it.cy - q| ≤ y_tol) :
    assignItem y_tol (l :: ls, q :: qs) it
      = ((l ++ [(it.x1, it.text)]) :: ls,
         ((7/10 : ℚ) * q + (3/10 : ℚ) * it.cy) :: qs) := by
  simp [assignItem, scanMatch, hq]

/-- Step equation: when nothing matches, a new cluster is appended to both
parallel lists. -/
theorem assignItem_cons_miss_none (y_tol : ℚ) (it : Item) (l : List (ℤ × String))
    (ls : List (List (ℤ × String))) (q : ℚ) (qs : List ℚ)
    (hq : ¬ |it.cy - q| ≤ y_tol) (hs : scanMatch qs it.cy y_tol = none) :
    assignItem y_tol (l :: ls, q :: qs) it
      = ((l :: ls) ++ [[(it.x1, it.text)]], (q :: qs) ++ [it.cy]) := by
  simp [assignItem, scanMatch, hq, hs]

/-- Step equation: a miss at the head delegates the assignment to the tail
state. -/
theorem assignItem_cons_miss_some (y_tol : ℚ) (it : Item) (l : List (ℤ × String))
    (ls : List (List (ℤ × String))) (q : ℚ) (qs : List ℚ) (i : ℕ)
    (hq : ¬ |it.cy - q| ≤ y_tol) (hs : scanMatch qs it.cy y_tol = some i) :
    assignItem y_tol (l :: ls, q :: qs) it
      = (l :: (assignItem y_tol (ls, qs) it).1, q :: (assignItem y_tol (ls, qs) it).2) := by
  simp [assignItem, scanMatch, hq, hs]

/-- One assignment step on the parallel state `(lines, line_cys)` agrees with
`placeItem` on the zipped cluster view, and keeps the two lists aligned. -/
theorem assignItem_placeItem (y_tol : ℚ) (it : Item) :
    ∀ (cys : List ℚ) (lines : List (List (ℤ × String))),
      lines.length = cys.length →
      (assignItem y_tol (lines, cys) it).1.length
          = (assignItem y_tol (lines, cys) it).2.length
      ∧ List.zipWith LineCluster.mk (assignItem y_tol (lines, cys) it).1
            (assignItem y_tol (lines, cys) it).2
        = placeItem y_tol it (List.zipWith LineCluster.mk lines cys) := by
  intro cys
  induction cys with
  | nil =>
    intro lines h
    rw [List.length_nil, List.length_eq_zero] at h
    subst h
    simp [assignItem, scanMatch, placeItem]
  | cons q qs ih =>
    intro lines h
    cases lines with
    | nil => simp at h
    | cons l ls =>
      have h' : ls.length = qs.length := by
        simp only [List.length_cons] at h
        omega
      by_cases hq : |it.cy - q| ≤ y_tol
      · rw [assignItem_cons_hit y_tol it l ls q qs hq]
        constructor
        · simp [h']
        · simp [placeItem, hq]
      · cases hs : scanMatch qs it.cy y_tol with
        | none =>
          have hrec := ih ls h'
          rw [assignItem_cons_miss_none y_tol it l ls q qs hq hs] at *
          rw [show assignItem y_tol (ls, qs) it
              = (ls ++ [[(it.x1, it.text)]], qs ++ [it.cy]) from by
            simp [assignItem, hs]] at hrec
          constructor
          · simp [h']
          · simp only [List.cons_append, List.zipWith_cons_cons, placeItem]
            rw [if_neg ?_]
            · exact congrArg (List.cons _) hrec.2
            · simpa using hq
        | some i =>
          have hrec := ih ls h'
          rw [assignItem_cons_miss_some y_tol it l ls q qs i hq hs]
          constructor
          · simp [hrec.1]
          · simp only [List.zipWith_cons_cons, placeItem]
            rw [if_neg ?_]
            · exact congrArg (List.cons _) hrec.2
            · simpa using hq

/-- Folding the assignment loop over the items agrees with folding
`placeItem` over the zipped cluster view. -/
theorem foldl_assignItem_placeItem (y_tol : ℚ) :
    ∀ (items : List Item) (lines : List (List (ℤ × String))) (cys : List ℚ),
      lines.length = cys.length →
      (items.foldl (assignItem y_tol) (lines, cys)).1.length
          = (items.foldl (assignItem y_tol) (lines, cys)).2.length
      ∧ List.zipWith LineCluster.mk (items.foldl (assignItem y_tol) (lines, cys)).1
            (items.foldl (assignItem y_tol) (lines, cys)).2
        = items.foldl (fun cs it => placeItem y_tol it cs)
            (List.zipWith LineCluster.mk lines cys) := by
  intro items
  induction items with
  | nil =>
    intro lines cys h
    exact ⟨h, rfl⟩
  | cons it rest ih =>
    intro lines cys h
    obtain ⟨h1, h2⟩ := assignItem_placeItem y_tol it cys lines h
    have hpair : assignItem y_tol (lines, cys) it
        = ((assignItem y_tol (lines, cys) it).1, (assignItem y_tol (lines, cys) it).2) := rfl
    simp only [List.foldl_cons]
    rw [hpair]
    obtain ⟨g1, g2⟩ := ih (assignItem y_tol (lines, cys) it).1
      (assignItem y_tol (lines, cys) it).2 h1
    exact ⟨g1, by rw [g2, h2]⟩

/-- Zipping aligned lists into clusters and projecting the members back is
the identity on the first list. -/
theorem zipWith_mk_members :
    ∀ (lines : List (List (ℤ × String))) (cys : List ℚ),
      lines.length = cys.length →
      (List.zipWith LineCluster.mk lines cys).map LineCluster.members = lines := by
  intro lines
  induction lines with
  | nil =>
    intro cys _
    simp
  | cons l ls ih =>
    intro cys h
    cases cys with
    | nil => simp at h
    | cons q qs =>
      have h' : ls.length = qs.length := by
        simp only [List.length_cons] at h
        omega
      simp [ih qs h']

/-- `group_into_lines` renders exactly the clusters of the specification
view, in order. -/
theorem group_into_lines_eq_clusters (results : List Frag) (y_tol : ℚ) :
    group_into_lines results y_tol
      = (clustersOf results y_tol).map (fun c => renderLine c.members) := by
  obtain ⟨h1, h2⟩ := foldl_assignItem_placeItem y_tol
    (List.insertionSort itemRel (results.map mkItem)) [] [] rfl
  show (List.map renderLine _) = _
  conv_lhs => rw [← zipWith_mk_members _ _ h1]
  rw [List.map_map, h2]
  rfl

/-- Placing an item adds exactly its `(x1, text)` pair to the multiset of
cluster members. -/
theorem placeItem_bind_perm (y_tol : ℚ) (it : Item) :
    ∀ cs : List LineCluster,
      ((placeItem y_tol it cs).flatMap LineCluster.members).Perm
        (cs.flatMap LineCluster.members ++ [(it.x1, it.text)]) := by
  intro cs
  induction cs with
  | nil => simp [placeItem]
  | cons c rest ih =>
    by_cases hq : |it.cy - c.center| ≤ y_tol
    · simp only [placeItem, if_pos hq, List.flatMap_cons]
      show ((c.members ++ [(it.x1, it.text)]) ++ rest.flatMap LineCluster.members).Perm _
      rw [List.append_assoc, List.append_assoc]
      exact List.Perm.append_left c.members (List.perm_append_comm)
    · simp only [placeItem, if_neg hq, List.flatMap_cons]
      rw [List.append_assoc]
      exact List.Perm.append_left c.members ih

/-- Folding the placement over a list of items appends exactly their
`(x1, text)` pairs to the multiset of cluster members. -/
theorem foldl_placeItem_bind_perm (y_tol : ℚ) :
    ∀ (items : List Item) (cs : List LineCluster),
      ((items.foldl (fun cs it => placeItem y_tol it cs) cs).flatMap LineCluster.members).Perm
        (cs.flatMap LineCluster.members ++ items.map (fun it => (it.x1, it.text))) := by
  intro items
  induction items with
  | nil =>
    intro cs
    simp
  | cons it rest ih =>
    intro cs
    rw [List.foldl_cons]
    refine (ih (placeItem y_tol it cs)).trans ?_
    refine ((placeItem_bind_perm y_tol it cs).append_right _).trans ?_
    simp [List.append_assoc]

/-- Placing an item grows the cluster list by at most one. -/
theorem placeItem_length_le (y_tol : ℚ) (it : Item) :
    ∀ cs : List LineCluster, (placeItem y_tol it cs).length ≤ cs.length + 1 := by
  intro cs
  induction cs with
  | nil => simp [placeItem]
  | cons c rest ih =>
    by_cases hq : |it.cy - c.center| ≤ y_tol
    · simp [placeItem, hq]
    · simp only [placeItem, if_neg hq, List.length_cons]
      omega

/-- Placing an item never shrinks the cluster list. -/
theorem le_placeItem_length (y_tol : ℚ) (it : Item) :
    ∀ cs : List LineCluster, cs.length ≤ (placeItem y_tol it cs).length := by
  intro cs
  induction cs with
  | nil => simp [placeItem]
  | cons c rest ih =>
    by_cases hq : |it.cy - c.center| ≤ y_tol
    · simp [placeItem, hq]
    · simp only [placeItem, if_neg hq, List.length_cons]
      omega

/-- The folded placement produces at most one cluster per item. -/
theorem foldl_placeItem_length_le (y_tol : ℚ) :
    ∀ (items : List Item) (cs : List LineCluster),
      (items.foldl (fun cs it => placeItem y_tol it cs) cs).length
        ≤ cs.length + items.length := by
  intro items
  induction items with
  | nil =>
    intro cs
    simp
  | cons it rest ih =>
    intro cs
    rw [List.foldl_cons]
    refine (ih (placeItem y_tol it cs)).trans ?_
    have := placeItem_length_le y_tol it cs
    simp only [List.length_cons]
    omega

/-- The folded placement never loses clusters. -/
theorem le_foldl_placeItem_length (y_tol : ℚ) :
    ∀ (items : List Item) (cs : List LineCluster),
      cs.length ≤ (items.foldl (fun cs it => placeItem y_tol it cs) cs).length := by
  intro items
  induction items with
  | nil =>
    intro cs
    simp
  | cons it rest ih =>
    intro cs
    rw [List.foldl_cons]
    exact (le_placeItem_length y_tol it cs).trans (ih (placeItem y_tol it cs))

/-! ### Claim theorems -/

/-- Claim C1: for every fragment list and tolerance, `group_into_lines`
first sorts the fragments by `(y1, x1)` ascending, then assigns each
fragment in that order to the first cluster whose running center is within
`y_tol` of its vertical center `cy = (y1+y2)/2`, smoothing that center with
weights `0.7/0.3`; otherwise a new cluster seeded with `cy` is appended, and
output lines appear in the order clusters were opened.  Stated as equality
with `spec_group_into_lines`, the literal transcription of that description,
together with the sortedness and completeness of the initial sort. -/
theorem group_into_lines_refines_spec (results : List Frag) (y_tol : ℚ) :
    group_into_lines results y_tol = spec_group_into_lines results y_tol
    ∧ List.Sorted itemRel (List.insertionSort itemRel (results.map mkItem))
    ∧ (List.insertionSort itemRel (results.map mkItem)).Perm (results.map mkItem) :=
  ⟨group_into_lines_eq_clusters results y_tol,
   List.sorted_insertionSort itemRel (results.map mkItem),
   List.perm_insertionSort itemRel (results.map mkItem)⟩

/-- Claim C2: every output line is the cluster's members sorted by `x1`
ascending, their texts joined by single spaces with trailing whitespace
trimmed; the sort used is a permutation of the members and is sorted by
`x1`; and the empty fragment list yields the empty line sequence. -/
theorem group_into_lines_render_and_empty (results : List Frag) (y_tol : ℚ)
    (ms : List (ℤ × String)) (i : ℕ) :
    (group_into_lines results y_tol).getD i ""
      = renderLine ((clustersOf results y_tol).getD i ⟨[], 0⟩).members
    ∧ (List.insertionSort memRel ms).Perm ms
    ∧ List.Sorted memRel (List.insertionSort memRel ms)
    ∧ renderLine ms
      = pyRstrip (String.intercalate " " ((List.insertionSort memRel ms).map Prod.snd))
    ∧ group_into_lines [] y_tol = [] := by
  refine ⟨?_, List.perm_insertionSort memRel ms, List.sorted_insertionSort memRel ms,
    rfl, rfl⟩
  rw [group_into_lines_eq_clusters results y_tol]
  have hd : ("" : String) = renderLine (LineCluster.mk [] 0).members := rfl
  rw [hd, List.getD_map]

/-- Claim C9 (implicit): `group_into_lines` partitions its input — the
multiset of texts across all clusters equals the multiset of input fragment
texts, the number of output lines is at most the number of input fragments,
and at least one line is produced for a non-empty input. -/
theorem group_into_lines_partition (results : List Frag) (y_tol : ℚ) :
    (((clustersOf results y_tol).flatMap LineCluster.members).map Prod.snd).Perm
      (results.map Frag.text)
    ∧ (group_into_lines results y_tol).length ≤ results.length
    ∧ (results ≠ [] → 1 ≤ (group_into_lines results y_tol).length) := by
  have hsortlen : (List.insertionSort itemRel (results.map mkItem)).length
      = results.length := by
    rw [(List.perm_insertionSort itemRel (results.map mkItem)).length_eq, List.length_map]
  refine ⟨?_, ?_, ?_⟩
  · have A := foldl_placeItem_bind_perm y_tol
      (List.insertionSort itemRel (results.map mkItem)) []
    simp only [List.flatMap_nil, List.nil_append] at A
    have B := A.map Prod.snd
    rw [List.map_map] at B
    have C := (List.perm_insertionSort itemRel (results.map mkItem)).map
      (fun it : Item => it.text)
    have D : (results.map mkItem).map (fun it : Item => it.text)
        = results.map Frag.text := by
      rw [List.map_map]
      rfl
    rw [D] at C
    exact (B.trans C :)
  · rw [group_into_lines_eq_clusters, List.length_map]
    have h := foldl_placeItem_length_le y_tol
      (List.insertionSort itemRel (results.map mkItem)) []
    unfold clustersOf
    simp only [List.length_nil] at h
    omega
  · intro hne
    rw [group_into_lines_eq_clusters, List.length_map]
    have hlen : 0 < (List.insertionSort itemRel (results.map mkItem)).length := by
      rw [hsortlen]
      exact List.length_pos.mpr hne
    obtain ⟨x, xs, hx⟩ : ∃ x xs, List.insertionSort itemRel (results.map mkItem)
        = x :: xs := by
      cases hc : List.insertionSort itemRel (results.map mkItem) with
      | nil => rw [hc] at hlen; simp at hlen
      | cons x xs => exact ⟨x, xs, rfl⟩
    unfold clustersOf
    rw [hx, List.foldl_cons]
    have h1 : (placeItem y_tol x []).length = 1 := by simp [placeItem]
    have h2 := le_foldl_placeItem_length y_tol xs (placeItem y_tol x [])
    omega

/-- A concrete fragment used to instantiate claim theorems. -/
def wFrag : Frag :=
  ⟨[(0, 0), (10, 0), (10, 10), (0, 10)], "hello", 9/10⟩

/-- A trivial operation bundle over the unit image type, used to instantiate
pipeline theorems at concrete inputs.  Its decoder always fails. -/
def unitExt : Ext Unit where
  imread := fun _ => none
  grayMean := fun _ => 0
  grayStd := fun _ => 0
  resize := fun _ i => i
  clahe := id
  toGray := id
  applyLUT := fun _ i => i
  bilateral := id
  sharpen := id
  readtext := fun _ _ => Except.ok []
  rectangle := fun i _ _ => i
  putText := fun i _ _ => i
  dims := fun _ => (0, 0)

/-- Witness for C9 at a concrete one-fragment input. -/
theorem group_into_lines_partition_witness :
    1 ≤ (group_into_lines [wFrag] 10).length :=
  (group_into_lines_partition [wFrag] 10).2.2 (by decide)

/-- Claim C4: the theme decision rule returns one of the two labels; "dark"
when `mean < 115`, "light" when `mean > 165`, otherwise "dark" exactly when
`mean < 140` and `std > 45`; the boundary values `mean = 115` and
`mean = 165` fall into the otherwise rule. -/
theorem theme_rule_correct (mean std : ℚ) :
    (theme_rule mean std = "dark" ∨ theme_rule mean std = "light")
    ∧ (mean < 115 → theme_rule mean std = "dark")
    ∧ (mean > 165 → theme_rule mean std = "light")
    ∧ (115 ≤ mean → mean ≤ 165 →
        theme_rule mean std = if mean < 140 ∧ std > 45 then "dark" else "light")
    ∧ theme_rule 115 std = (if (115 : ℚ) < 140 ∧ std > 45 then "dark" else "light")
    ∧ theme_rule 165 std = (if (165 : ℚ) < 140 ∧ std > 45 then "dark" else "light") := by
  unfold theme_rule
  refine ⟨?_, ?_, ?_, ?_, ?_, ?_⟩
  · split_ifs <;> simp
  · intro h
    rw [if_pos h]
  · intro h
    rw [if_neg (by linarith), if_pos h]
  · intro h1 h2
    rw [if_neg (by linarith), if_neg (by linarith)]
  · rw [if_neg (by norm_num), if_neg (by norm_num)]
  · rw [if_neg (by norm_num), if_neg (by norm_num)]

/-- Witness for C4: a mean of 100 is classified dark. -/
theorem theme_rule_correct_witness : theme_rule 100 0 = "dark" :=
  (theme_rule_correct 100 0).2.1 (by decide)

/-- Claim C3: filtering keeps exactly the fragments with confidence at least
`min_conf`, preserves the original relative order (sublist) and is
count-exact; every fragment list inside a successfully returned `RunResult`
satisfies the `min_conf` bound. -/
theorem fragFilter_spec (frags : List Frag) (c : ℚ) (Img : Type) (E : Ext Img)
    (path : String) (cfg : OCRConfig) :
    (fragFilter frags c).Sublist frags
    ∧ (∀ f ∈ fragFilter frags c, c ≤ f.conf)
    ∧ (∀ f ∈ frags, c ≤ f.conf → f ∈ fragFilter frags c)
    ∧ (fragFilter frags c).length = frags.countP (fun f => decide (c ≤ f.conf))
    ∧ (∀ r : RunResult Img, run_ocr E path cfg = Except.ok r →
        ∀ f ∈ r.results, cfg.min_conf ≤ f.conf) := by
  refine ⟨List.filter_sublist _, ?_, ?_, ?_, ?_⟩
  · intro f hf
    have := List.of_mem_filter hf
    simpa using this
  · intro f hf hc
    exact List.mem_filter.mpr ⟨hf, by simpa using hc⟩
  · simp [fragFilter, List.countP_eq_length_filter]
  · intro r hr f hf
    unfold run_ocr load_image at hr
    cases him : E.imread path with
    | none =>
      rw [him] at hr
      simp at hr
    | some bgr =>
      rw [him] at hr
      simp only at hr
      cases hrt : E.readtext cfg
          (preprocess_for_screenshot E bgr (detect_theme E bgr) cfg.scale) with
      | error e =>
        rw [hrt] at hr
        simp at hr
      | ok rs =>
        rw [hrt] at hr
        simp only [Except.ok.injEq] at hr
        have hres : r.results = fragFilter rs cfg.min_conf := by
          rw [← hr]
        rw [hres] at hf
        have := List.of_mem_filter hf
        simpa using this

unseal Rat.mul Rat.add Rat.sub Rat.inv in
/-- Witness for C3: the concrete fragment passes a 0.5 threshold filter. -/
theorem fragFilter_spec_witness : (1/2 : ℚ) ≤ wFrag.conf :=
  (fragFilter_spec [wFrag] (1/2) Unit unitExt "p" {}).2.1 wFrag (by decide)

/-- `String.join` distributes over cons. -/
theorem string_join_cons (a : String) (t : List String) :
    String.join (a :: t) = a ++ String.join t := by
  have key : ∀ (t : List String) (s : String),
      t.foldl (· ++ ·) s = s ++ t.foldl (· ++ ·) "" := by
    intro t
    induction t with
    | nil =>
      intro s
      simp [String.append_empty]
    | cons b u ih =>
      intro s
      show u.foldl (· ++ ·) (s ++ b) = s ++ u.foldl (· ++ ·) ("" ++ b)
      rw [ih (s ++ b), ih ("" ++ b), String.empty_append, String.append_assoc]
  show (a :: t).foldl (· ++ ·) "" = a ++ t.foldl (· ++ ·) ""
  rw [List.foldl_cons, key t ("" ++ a), String.empty_append]

/-- The accumulator loop of `String.intercalate` in closed form. -/
theorem intercalate_go_eq (s : String) :
    ∀ (as : List String) (acc : String),
      String.intercalate.go acc s as
        = acc ++ String.join (as.map (fun a => s ++ a)) := by
  intro as
  induction as with
  | nil =>
    intro acc
    show acc = acc ++ String.join []
    rw [show String.join [] = "" from rfl, String.append_empty]
  | cons a t ih =>
    intro acc
    show String.intercalate.go (acc ++ s ++ a) s t = _
    rw [ih (acc ++ s ++ a), List.map_cons, string_join_cons,
      String.append_assoc, String.append_assoc, String.append_assoc]

/-- `String.intercalate` peels off its first separator. -/
theorem intercalate_cons_cons (s a b : String) (u : List String) :
    String.intercalate s (a :: b :: u) = a ++ s ++ String.intercalate s (b :: u) := by
  show String.intercalate.go (a ++ s ++ b) s u = a ++ s ++ String.intercalate.go b s u
  rw [intercalate_go_eq s u (a ++ s ++ b), intercalate_go_eq s u b,
    String.append_assoc, String.append_assoc]

/-- The data-row loop of the csv export writes, for each line, one row
holding its 1-based index and its text, in order. -/
theorem csvRows_eq_join (ls : List String) :
    ∀ n : ℕ, csvRows n ls
      = String.join ((List.enumFrom n ls).map (fun p => csvRow [toString p.1, p.2])) := by
  induction ls with
  | nil =>
    intro n
    rfl
  | cons l t ih =>
    intro n
    show csvRow [toString n, l] ++ csvRows (n + 1) t = _
    rw [ih (n + 1)]
    rw [show List.enumFrom n (l :: t) = (n, l) :: List.enumFrom (n + 1) t from rfl]
    rw [List.map_cons, string_join_cons]

/-- Claim C6: the text export content is exactly the lines joined by newline
with one trailing newline (equivalently, for non-empty input, each line
suffixed with a newline, concatenated); the csv export content is exactly
the header row `line_no,text` followed by one row per line, numbered from 1
in order. -/
theorem export_contents (lines : List String) :
    export_txt_content lines = String.intercalate "\n" lines ++ "\n"
    ∧ (lines ≠ [] →
        export_txt_content lines = String.join (lines.map (fun l => l ++ "\n")))
    ∧ export_csv_content lines
      = "line_no,text\r\n"
        ++ String.join ((List.enumFrom 1 lines).map
            (fun p => csvRow [toString p.1, p.2])) := by
  refine ⟨rfl, ?_, ?_⟩
  · intro hne
    obtain ⟨a, t, rfl⟩ : ∃ a t, lines = a :: t := by
      cases lines with
      | nil => exact absurd rfl hne
      | cons a t => exact ⟨a, t, rfl⟩
    clear hne
    induction t generalizing a with
    | nil => rfl
    | cons b u ih =>
      show String.intercalate "\n" (a :: b :: u) ++ "\n" = _
      rw [List.map_cons, string_join_cons, intercalate_cons_cons,
        String.append_assoc, String.append_assoc, ← ih b,
        ← String.append_assoc]
      rfl
  · show csvRow ["line_no", "text"] ++ csvRows 1 lines = _
    rw [csvRows_eq_join lines 1]
    rfl

/-- Witness for C6 at a concrete two-line input. -/
theorem export_contents_witness :
    export_txt_content ["ab", "cd"]
      = String.join (["ab", "cd"].map (fun l => l ++ "\n")) :=
  (export_contents ["ab", "cd"]).2.1 (by decide)

/-- Claim C10 (implicit): exporting the empty line list writes exactly one
newline character — not an empty file — so splitting the re-read content on
newline yields `["", ""]`, not the empty list. -/
theorem export_txt_empty_newline :
    export_txt_content [] = "\n"
    ∧ export_txt_content [] ≠ ""
    ∧ splitNl (export_txt_content []).data = [[], []]
    ∧ splitNl (export_txt_content []).data ≠ ([] : List (List Char)) := by
  exact ⟨rfl, by decide, by decide, by decide⟩

/-- `draw_overlay` equals the fold of the drawing step over exactly the
fragments that pass the confidence threshold. -/
theorem draw_overlay_filter_foldl (Img : Type) (E : Ext Img) (results : List Frag) :
    ∀ (img : Img) (c : ℚ),
      draw_overlay E img results c
        = (results.filter (fun f => decide (c ≤ f.conf))).foldl (overlayStep E) img := by
  induction results with
  | nil =>
    intro img c
    rfl
  | cons f t ih =>
    intro img c
    by_cases hf : f.conf < c
    · rw [show draw_overlay E img (f :: t) c = draw_overlay E img t c from by
        simp [draw_overlay, hf]]
      rw [ih img c]
      have hfil : List.filter (fun g => decide (c ≤ g.conf)) (f :: t)
          = List.filter (fun g => decide (c ≤ g.conf)) t := by
        rw [List.filter_cons, if_neg (by simpa using not_le.mpr hf)]
      rw [hfil]
    · rw [show draw_overlay E img (f :: t) c = draw_overlay E (overlayStep E img f) t c from by
        simp [draw_overlay, hf]]
      rw [ih _ c]
      have hfil : List.filter (fun g => decide (c ≤ g.conf)) (f :: t)
          = f :: List.filter (fun g => decide (c ≤ g.conf)) t := by
        rw [List.filter_cons, if_pos (by simpa using not_lt.mp hf)]
      rw [hfil, List.foldl_cons]

/-- When the raster primitives preserve image dimensions, so does
`draw_overlay`. -/
theorem draw_overlay_dims (Img : Type) (E : Ext Img)
    (hR : ∀ i a b, E.dims (E.rectangle i a b) = E.dims i)
    (hT : ∀ i s p, E.dims (E.putText i s p) = E.dims i)
    (results : List Frag) :
    ∀ (img : Img) (c : ℚ), E.dims (draw_overlay E img results c) = E.dims img := by
  induction results with
  | nil =>
    intro img c
    rfl
  | cons f t ih =>
    intro img c
    by_cases hf : f.conf < c
    · rw [show draw_overlay E img (f :: t) c = draw_overlay E img t c from by
        simp [draw_overlay, hf]]
      exact ih img c
    · rw [show draw_overlay E img (f :: t) c = draw_overlay E (overlayStep E img f) t c from by
        simp [draw_overlay, hf]]
      rw [ih _ c]
      unfold overlayStep
      rw [hT, hR]

/-- Claim C7: `draw_overlay` draws a rectangle and the label
`"<text> (<confidence to 2 decimals>)"` exactly for the fragments with
confidence at least the threshold; when the raster primitives preserve
dimensions, the output has the dimensions of the input image; the label
anchor is clamped so it never lies above the top edge.  (The source starts
from `bgr_scaled.copy()`; in this pure embedding the input value is
unchanged by construction.) -/
theorem draw_overlay_spec (Img : Type) (E : Ext Img) (img : Img)
    (results : List Frag) (c : ℚ) (f0 : Frag) :
    draw_overlay E img results c
      = (results.filter (fun f => decide (c ≤ f.conf))).foldl (overlayStep E) img
    ∧ ((∀ i a b, E.dims (E.rectangle i a b) = E.dims i) →
       (∀ i s p, E.dims (E.putText i s p) = E.dims i) →
       E.dims (draw_overlay E img results c) = E.dims img)
    ∧ 0 ≤ (labelPos f0).2
    ∧ fragLabel f0 = f0.text ++ " (" ++ fmt2 f0.conf ++ ")" := by
  refine ⟨draw_overlay_filter_foldl Img E results img c, ?_, ?_, rfl⟩
  · intro hR hT
    exact draw_overlay_dims Img E hR hT results img c
  · exact le_max_left 0 _

/-- Witness for C7 with concrete dimension-preserving primitives. -/
theorem draw_overlay_spec_witness :
    unitExt.dims (draw_overlay unitExt () [wFrag] (1/2)) = unitExt.dims () :=
  (draw_overlay_spec Unit unitExt () [wFrag] (1/2) wFrag).2.1
    (fun _ _ _ => rfl) (fun _ _ _ => rfl)

/-- Claim C8: when the image path does not decode, `run_ocr` fails
immediately with the decoder error and produces nothing; and `run_ocr` never
yields a partial value — an `ok` result is the complete assembly of theme,
lines, filtered fragments, overlay and scaled image, while an `error` is
either the decoder failure or a recognition-engine failure propagated
unchanged. -/
theorem run_ocr_error_policy (Img : Type) (E : Ext Img) (path : String)
    (cfg : OCRConfig) :
    (E.imread path = none →
      run_ocr E path cfg = Except.error ("Image not found: " ++ path))
    ∧ (∀ r : RunResult Img, run_ocr E path cfg = Except.ok r →
        ∃ bgr frs, E.imread path = some bgr
          ∧ E.readtext cfg (preprocess_for_screenshot E bgr (detect_theme E bgr) cfg.scale)
              = Except.ok frs
          ∧ r = { theme := detect_theme E bgr,
                  lines := group_into_lines (fragFilter frs cfg.min_conf) (yTolOf cfg.scale),
                  results := fragFilter frs cfg.min_conf,
                  overlay_bgr := draw_overlay E (pyResizeStep E bgr cfg.scale)
                    (fragFilter frs cfg.min_conf) cfg.min_conf,
                  bgr_scaled := pyResizeStep E bgr cfg.scale })
    ∧ (∀ e, run_ocr E path cfg = Except.error e →
        (E.imread path = none ∧ e = "Image not found: " ++ path)
        ∨ ∃ bgr, E.imread path = some bgr
            ∧ E.readtext cfg (preprocess_for_screenshot E bgr (detect_theme E bgr) cfg.scale)
                = Except.error e) := by
  refine ⟨?_, ?_, ?_⟩
  · intro hnone
    unfold run_ocr load_image
    rw [hnone]
  · intro r hr
    unfold run_ocr load_image at hr
    cases him : E.imread path with
    | none =>
      rw [him] at hr
      simp at hr
    | some bgr =>
      rw [him] at hr
      simp only at hr
      cases hrt : E.readtext cfg
          (preprocess_for_screenshot E bgr (detect_theme E bgr) cfg.scale) with
      | error e =>
        rw [hrt] at hr
        simp at hr
      | ok frs =>
        rw [hrt] at hr
        simp only [Except.ok.injEq] at hr
        exact ⟨bgr, frs, rfl, hrt, hr.symm⟩
  · intro e he
    unfold run_ocr load_image at he
    cases him : E.imread path with
    | none =>
      rw [him] at he
      simp only [Except.error.injEq] at he
      exact Or.inl ⟨rfl, he.symm⟩
    | some bgr =>
      rw [him] at he
      simp only at he
      cases hrt : E.readtext cfg
          (preprocess_for_screenshot E bgr (detect_theme E bgr) cfg.scale) with
      | error e2 =>
        rw [hrt] at he
        simp only [Except.error.injEq] at he
        exact Or.inr ⟨bgr, rfl, by rw [hrt, he]⟩
      | ok frs =>
        rw [hrt] at he
        simp at he

/-- Witness for C8: a failing decoder makes the whole run fail. -/
theorem run_ocr_error_policy_witness :
    run_ocr unitExt "shot.png" {} = Except.error ("Image not found: " ++ "shot.png") :=
  (run_ocr_error_policy Unit unitExt "shot.png" {}).1 rfl

/-- Modelled from the claim's wording (spec §4.2 step 4): a table whose
entry `i` is `round(255 * (i/255)^(1/gamma))`. -/
noncomputable def specRoundGammaEntry (gamma : ℚ) (i : ℕ) : ℤ :=
  round ((255 : ℝ) * ((i : ℝ) / 255) ^ ((1 : ℝ) / (gamma : ℝ)))

/-- The table value at gamma = 5/4 and index 5, raised to the fifth power:
`(255 * (5/255)^(4/5))^5 = 255^5 * (5/255)^4 = 159375`. -/
theorem gamma_entry_pow_five :
    (((5 : ℝ) / 255) ^ ((4 : ℝ) / 5) * 255) ^ (5 : ℕ) = 159375 := by
  have ha : (0 : ℝ) ≤ (5 : ℝ) / 255 := by norm_num
  have h1 : (((5 : ℝ) / 255) ^ ((4 : ℝ) / 5)) ^ (5 : ℕ)
      = ((5 : ℝ) / 255) ^ ((4 : ℝ)) := by
    rw [← Real.rpow_natCast (((5 : ℝ) / 255) ^ ((4 : ℝ) / 5)) 5,
      ← Real.rpow_mul ha]
    norm_num
  rw [mul_pow, h1, show ((4 : ℝ)) = ((4 : ℕ) : ℝ) from by norm_num,
    Real.rpow_natCast]
  norm_num

/-- The table value at gamma = 5/4 and index 5 lies strictly between 10.5
and 11. -/
theorem gamma_entry_bounds :
    (21 / 2 : ℝ) < ((5 : ℝ) / 255) ^ ((4 : ℝ) / 5) * 255
    ∧ ((5 : ℝ) / 255) ^ ((4 : ℝ) / 5) * 255 < 11 := by
  set x : ℝ := ((5 : ℝ) / 255) ^ ((4 : ℝ) / 5) * 255 with hx
  have hx0 : 0 ≤ x := by
    have := Real.rpow_pos_of_pos (show (0 : ℝ) < 5 / 255 from by norm_num) ((4 : ℝ) / 5)
    positivity
  have hx5 : x ^ (5 : ℕ) = 159375 := gamma_entry_pow_five
  constructor
  · by_contra hcon
    push_neg at hcon
    have hle := pow_le_pow_left₀ hx0 hcon 5
    rw [hx5] at hle
    norm_num at hle
  · by_contra hcon
    push_neg at hcon
    have hle := pow_le_pow_left₀ (show (0 : ℝ) ≤ 11 from by norm_num) hcon 5
    rw [hx5] at hle
    norm_num at hle

/-- The exponent used by `_gamma` at gamma = 5/4 simplifies to 4/5. -/
theorem gamma_exponent_eq :
    (1 : ℝ) / max (((5 : ℚ)/4 : ℚ) : ℝ) (1 / 1000000) = (4 : ℝ) / 5 := by
  have hc : (((5 : ℚ)/4 : ℚ) : ℝ) = 5 / 4 := by norm_num
  rw [hc, max_eq_left (by norm_num)]
  norm_num

/-- Counterexample for C5: the code's lookup table truncates, the claim's
formula rounds, and the two differ at entry 5 for gamma = 1.25 (the code
yields 10, the claimed `round` formula yields 11). -/
theorem gamma_lut_round_counterexample :
    gammaTable (5/4) 5 ≠ specRoundGammaEntry (5/4) 5 := by
  obtain ⟨hlo, hhi⟩ := gamma_entry_bounds
  have hcast : ((5 : ℕ) : ℝ) = (5 : ℝ) := by norm_num
  have hfloor : gammaTable (5/4) 5 = 10 := by
    unfold gammaTable
    rw [hcast, gamma_exponent_eq]
    rw [Int.floor_eq_iff]
    constructor
    · push_cast
      linarith
    · push_cast
      linarith
  have hround : specRoundGammaEntry (5/4) 5 = 11 := by
    unfold specRoundGammaEntry
    have hc : (1 : ℝ) / (((5 : ℚ)/4 : ℚ) : ℝ) = (4 : ℝ) / 5 := by
      norm_num
    rw [hcast, hc, round_eq, mul_comm (255 : ℝ), Int.floor_eq_iff]
    constructor
    · push_cast
      linarith
    · push_cast
      linarith
  rw [hfloor, hround]
  omega

/-- Claim C5 (amended): in the preprocessing pipeline, gamma correction with
gamma = 1.25 is applied if and only if the detected theme is "dark" (skipped
for any other theme), using the 256-entry lookup table whose entry `i`
equals the truncation (floor, on these nonnegative values) of
`255 * (i/255)^(1/gamma)` — not its rounding. -/
theorem preprocess_gamma_amended (Img : Type) (E : Ext Img) (bgr : Img)
    (scale : ℚ) (i : ℕ) (theme : String) :
    preprocess_for_screenshot E bgr "dark" scale
      = E.sharpen (E.bilateral (E.applyLUT (gammaTable (5/4))
          (E.toGray (E.clahe (pyResizeStep E bgr scale)))))
    ∧ preprocess_for_screenshot E bgr "light" scale
      = E.sharpen (E.bilateral (E.toGray (E.clahe (pyResizeStep E bgr scale))))
    ∧ (theme ≠ "dark" →
        preprocess_for_screenshot E bgr theme scale
          = E.sharpen (E.bilateral (E.toGray (E.clahe (pyResizeStep E bgr scale)))))
    ∧ gammaTable (5/4) i
      = ⌊(255 : ℝ) * ((i : ℝ) / 255) ^ ((1 : ℝ) / (((5 : ℚ)/4 : ℚ) : ℝ))⌋ := by
  refine ⟨rfl, rfl, ?_, ?_⟩
  · intro hth
    simp only [preprocess_for_screenshot, if_neg hth]
  · unfold gammaTable
    rw [gamma_exponent_eq, mul_comm (255 : ℝ)]
    have hc : (1 : ℝ) / (((5 : ℚ)/4 : ℚ) : ℝ) = (4 : ℝ) / 5 := by norm_num
    rw [hc]

/-- Witness for the amended C5: any non-"dark" theme skips the gamma step. -/
theorem preprocess_gamma_amended_witness :
    preprocess_for_screenshot unitExt () "auto" 1
      = unitExt.sharpen (unitExt.bilateral (unitExt.toGray
          (unitExt.clahe (pyResizeStep unitExt () 1)))) :=
  (preprocess_gamma_amended Unit unitExt () 1 0 "auto").2.2.1 (by decide)

end OcrCore
